import Mathlib

/-!
Shallow embedding of the zwiftpower rider-import core (src/zp/zp.go).

Modelling conventions:
* Instants are integers counting seconds since the Unix epoch.  Go's zero
  `time.Time` (January 1, year 1 UTC) is the integer `zeroTime`; `time.Unix s 0`
  is `s`; `a.After b` is `a > b`; durations compare in whole seconds.
* Go `float64` ratio values are modelled as rationals.  The loop only ever
  compares and copies them, so exact arithmetic is faithful here.
* Values decoded by `encoding/json` into `interface{}` are modelled by the
  `JVal` variant: a JSON number decodes to `float64` (here `JVal.num`), a JSON
  string to `string` (here `JVal.str`), an array to `[]interface{}`
  (here `JVal.arr`).
* Failed Go type assertions and out-of-range indexing end the process with a
  runtime panic, and `log.Fatal` exits it; both are modelled as `Except.error`
  carrying a `GoAbort` describing which process-terminating event fired.
  No `error` value for malformed ratios is ever returned to a caller in the
  source, so `GoAbort` is the complete set of abnormal outcomes.
* The wall clock `time.Now()` is injected as a fixed parameter `now`.
* `int(d.Hours() / 24)` on a duration of whole seconds equals truncating
  division of the seconds by 86400, modelled with `Int.tdiv`.  (Go saturates a
  `time.Duration` at about ±292 years; the saturated value still lies far
  outside every window used here, so saturation is not modelled.)
-/

namespace Zp

/-- Dynamic JSON-like values as produced by Go `json.Unmarshal` into
`interface{}`. -/
inductive JVal : Type
  | num (q : ℚ)
  | str (s : String)
  | arr (elems : List JVal)
  | jbool (b : Bool)
  | null

/-- Consume a run of leading decimal digits: accumulated value, number of
digits consumed, and remaining characters. -/
def readDigits : List Char → ℕ → ℕ → ℕ × ℕ × List Char
  | c :: cs, acc, n =>
    if c.isDigit then readDigits cs (10 * acc + (c.toNat - 48)) (n + 1)
    else (acc, n, c :: cs)
  | [], acc, n => (acc, n, [])

/-- Models `strconv.ParseFloat` (Go standard library) on its plain decimal
forms: an optional sign, an integer part and an optional fractional part, at
least one digit overall.  Exponent, hexadecimal, underscore, infinity and NaN
forms are not modelled, and the value is kept exact instead of being rounded
to the nearest `float64`; no claim in this development depends on either. -/
def parseFloat (s : String) : Option ℚ :=
  let cs := s.data
  let signed :=
    match cs with
    | '-' :: rest => (true, rest)
    | '+' :: rest => (false, rest)
    | _ => (false, cs)
  let ipart := readDigits signed.2 0 0
  let fpart :=
    match ipart.2.2 with
    | '.' :: rest => readDigits rest 0 0
    | other => (0, 0, other)
  if ipart.2.1 + fpart.2.1 = 0 ∨ fpart.2.2 ≠ [] then none
  else
    let mag : ℕ := ipart.1 * 10 ^ fpart.2.1 + fpart.1
    some (mkRat (if signed.1 then -(mag : ℤ) else (mag : ℤ)) (10 ^ fpart.2.1))

/-- Is `pat` a prefix of the second character list? -/
def isPrefixChars : List Char → List Char → Bool
  | [], _ => true
  | _ :: _, [] => false
  | a :: as, b :: bs => a == b && isPrefixChars as bs

/-- Does the second character list contain `pat` as a contiguous sublist? -/
def containsSub (pat : List Char) : List Char → Bool
  | [] => isPrefixChars pat []
  | b :: bs => isPrefixChars pat (b :: bs) || containsSub pat bs

/-- Models `strings.Contains s pat` (Go standard library): substring test,
case-sensitive. -/
def strContains (s pat : String) : Bool :=
  containsSub pat.data s.data

/-- Process-terminating outcomes of the rider import loop: a failed Go type
assertion or an out-of-range index is a runtime panic, and a `strconv` parse
failure reaches `log.Fatal` (src/zp/zp.go lines 135-150).  Each carries the
JSON field being decoded; nothing else (no rider or event identity) is
attached in the source. -/
inductive GoAbort : Type
  | typeAssertPanic (field : String)
  | indexPanic (field : String)
  | fatalParse (field : String)
deriving DecidableEq

/-- Extraction of the `wkg_ftp` ratio (src/zp/zp.go lines 135-142):
assert the field is a list, take element 0, try the `float64` type assertion
first, and only if that fails parse the element as a string with
`strconv.ParseFloat`; a parse failure hits `log.Fatal`. -/
def parseWkgFtp (v : JVal) : Except GoAbort ℚ :=
  match v with
  | JVal.arr (x :: _) =>
    match x with
    | JVal.num q => Except.ok q
    | JVal.str s =>
      match parseFloat s with
      | some q => Except.ok q
      | none => Except.error (GoAbort.fatalParse "wkg_ftp")
    | _ => Except.error (GoAbort.typeAssertPanic "wkg_ftp")
  | JVal.arr [] => Except.error (GoAbort.indexPanic "wkg_ftp")
  | _ => Except.error (GoAbort.typeAssertPanic "wkg_ftp")

/-- Extraction of the `avg_wkg` ratio (src/zp/zp.go lines 144-147):
assert the field is a list, take element 0, and assert it is a string before
parsing it with `strconv.ParseFloat`.  Unlike `parseWkgFtp` there is no
numeric branch: a `float64` element fails the `.(string)` assertion. -/
def parseAvgWkg (v : JVal) : Except GoAbort ℚ :=
  match v with
  | JVal.arr (x :: _) =>
    match x with
    | JVal.str s =>
      match parseFloat s with
      | some q => Except.ok q
      | none => Except.error (GoAbort.fatalParse "avg_wkg")
    | _ => Except.error (GoAbort.typeAssertPanic "avg_wkg")
  | JVal.arr [] => Except.error (GoAbort.indexPanic "avg_wkg")
  | _ => Except.error (GoAbort.typeAssertPanic "avg_wkg")

/-- EventDateType.UnmarshalJSON (src/zp/zp.go lines 56-64): unmarshal the raw
field into an `int64`, deliberately ignoring the error so that anything that
is not a well-formed in-range integer leaves the zero value; the method itself
always returns `nil`.  (A decimal or exponent literal that happens to denote
an integer is treated as integral here, although Go's decoder would reject the
literal; the `JVal` abstraction does not retain the written form.  An absent
field, for which Go never invokes the unmarshaller, is `JVal.null`, which the
no-op unmarshal of JSON `null` also maps to zero.) -/
def EventDateType.unmarshalJSON (data : JVal) : Except String Int :=
  Except.ok
    (match data with
     | JVal.num q =>
       if q.den = 1 ∧ -(2 ^ 63) ≤ q.num ∧ q.num < 2 ^ 63 then q.num else 0
     | _ => 0)

/-- Seconds-since-Unix-epoch reading of Go's zero `time.Time`
(January 1, year 1 UTC, i.e. 62135596800 seconds before the epoch). -/
def zeroTime : Int := -62135596800

/-- One decoded element of the rider's event history (`Event` in
src/zp/zp.go lines 41-49) after JSON unmarshalling: the custom unmarshaller
has already turned `event_date` into an integer, while the two ratio fields
are still dynamic values. -/
structure Event where
  eventType : String
  eventDateSecs : Int
  eventTitle : String
  avgWkg : JVal
  wkgFtp : JVal

/-- The rider snapshot (`Rider` in src/zp/zp.go lines 20-36) with Go zero
values as defaults. -/
structure Rider where
  name : String := ""
  zwid : Int := 0
  latestEventDate : Int := zeroTime
  rides : ℕ := 0
  races : ℕ := 0
  races90 : ℕ := 0
  races30 : ℕ := 0
  ftp90 : ℚ := 0
  ftp60 : ℚ := 0
  ftp30 : ℚ := 0
  latestRace : String := ""
  latestRaceDate : Int := zeroTime
  latestEvent : String := ""
  latestRaceAvgWkg : ℚ := 0
  latestRaceWkgFtp : ℚ := 0
deriving DecidableEq

/-- Whole 24-hour periods between `now` and a date, truncated toward zero:
`int(time.Now().Sub(e.EventDate).Hours() / 24)` at src/zp/zp.go line 124. -/
def daysAgo (now d : Int) : Int :=
  Int.tdiv (now - d) 86400

/-- One iteration of the event loop in ImportRider (src/zp/zp.go lines
122-192).  The accumulator is the rider under construction together with the
loop-local `latestEventDate` and `latestRaceDate` variables. -/
def stepE (now : Int) (acc : Rider × Int × Int) (e : Event) :
    Except GoAbort (Rider × Int × Int) := do
  let rider := acc.1
  let latestEventDate := acc.2.1
  let latestRaceDate := acc.2.2
  let eventDate := e.eventDateSecs
  let days := daysAgo now eventDate
  let isRace := strContains e.eventType "RACE"
  let rider :=
    if days ≤ 365 then
      { rider with
        rides := rider.rides + 1,
        races := if isRace then rider.races + 1 else rider.races }
    else rider
  let wkgFtp ← parseWkgFtp e.wkgFtp
  let avgWkg ← parseAvgWkg e.avgWkg
  let rider :=
    if days ≤ 90 then
      { rider with
        ftp90 := if wkgFtp > rider.ftp90 then wkgFtp else rider.ftp90,
        races90 := if isRace then rider.races90 + 1 else rider.races90 }
    else rider
  let rider :=
    if days ≤ 60 then
      { rider with
        ftp60 := if wkgFtp > rider.ftp60 then wkgFtp else rider.ftp60 }
    else rider
  let rider :=
    if days ≤ 30 then
      { rider with
        races30 := if isRace then rider.races30 + 1 else rider.races30,
        ftp30 := if wkgFtp > rider.ftp30 then wkgFtp else rider.ftp30 }
    else rider
  let rider :=
    if eventDate > latestEventDate then
      { rider with latestEvent := e.eventTitle }
    else rider
  let latestEventDate :=
    if eventDate > latestEventDate then eventDate else latestEventDate
  let rider :=
    if isRace = true ∧ eventDate > latestRaceDate then
      { rider with
        latestRace := e.eventTitle,
        latestRaceAvgWkg := avgWkg,
        latestRaceWkgFtp := wkgFtp }
    else rider
  let latestRaceDate :=
    if isRace = true ∧ eventDate > latestRaceDate then eventDate
    else latestRaceDate
  pure (rider, latestEventDate, latestRaceDate)

/-- ImportRider (src/zp/zp.go lines 97-192) with the network retrieval and
JSON decode factored out: it receives the decoded event list, sets `Zwid`,
returns immediately on an empty history, otherwise folds the loop body over
the events and finally stores the two loop-local "latest" dates into the
rider. -/
def importRider (now : Int) (riderID : Int) (events : List Event) :
    Except GoAbort Rider :=
  let rider : Rider := { zwid := riderID }
  if events.length < 1 then Except.ok rider
  else do
    let acc ← events.foldlM (stepE now) (rider, zeroTime, zeroTime)
    pure { acc.1 with latestEventDate := acc.2.1, latestRaceDate := acc.2.2 }

/-- Month (1 to 12) of the civil date holding a given instant, days floored
from seconds; models `time.Time.Month()` of the Go standard library via the
standard days-to-civil conversion on the proleptic Gregorian calendar. -/
def monthOf (secs : Int) : Int :=
  let z := Int.fdiv secs 86400 + 719468
  let era := Int.fdiv z 146097
  let doe := z - era * 146097
  let yoe :=
    Int.fdiv (doe - Int.fdiv doe 1460 + Int.fdiv doe 36524 - Int.fdiv doe 146096) 365
  let doy := doe - (365 * yoe + Int.fdiv yoe 4 - Int.fdiv yoe 100)
  let mp := Int.fdiv (5 * doy + 2) 153
  if mp < 10 then mp + 3 else mp - 9

/-- Rider.MonthsAgo (src/zp/zp.go lines 214-236) with the wall clock
injected. -/
def Rider.monthsAgo (now : Int) (r : Rider) : String :=
  if r.latestEventDate = zeroTime then "No latest event"
  else if now - r.latestEventDate > 86400 * 365 then "Over a year ago"
  else
    let monthDiff := monthOf now - monthOf r.latestEventDate
    let monthDiff := if monthDiff < 0 then monthDiff + 12 else monthDiff
    if monthDiff = 0 then "This month"
    else if monthDiff = 1 then "Last month"
    else toString monthDiff ++ " months ago"

/-- The `wkg_ftp` value an event contributes when its extraction succeeds
(zero is a junk value only ever read under `ratioOK`). -/
def wkgVal (e : Event) : ℚ :=
  match parseWkgFtp e.wkgFtp with
  | Except.ok q => q
  | Except.error _ => 0

/-- The `avg_wkg` value an event contributes when its extraction succeeds. -/
def avgVal (e : Event) : ℚ :=
  match parseAvgWkg e.avgWkg with
  | Except.ok q => q
  | Except.error _ => 0

/-- Do both ratio extractions of this event succeed? -/
def ratioOK (e : Event) : Bool :=
  (parseWkgFtp e.wkgFtp).isOk && (parseAvgWkg e.avgWkg).isOk

/-- The race flag of an event: its type label contains "RACE"
(src/zp/zp.go line 126). -/
def isRaceE (e : Event) : Bool :=
  strContains e.eventType "RACE"

/-- Is the event inside the trailing `n`-day window? -/
def inWin (now n : Int) (e : Event) : Bool :=
  decide (daysAgo now e.eventDateSecs ≤ n)

/-- Is the event a race inside the trailing `n`-day window? -/
def raceIn (now n : Int) (e : Event) : Bool :=
  isRaceE e && inWin now n e

/-- Pure rendering of one loop iteration, defined for events whose ratio
extractions succeed (elsewhere it reads the junk values of `wkgVal` and
`avgVal`); `stepE_eq_stepP` ties it to `stepE`. -/
def stepP (now : Int) (acc : Rider × Int × Int) (e : Event) :
    Rider × Int × Int :=
  let rider := acc.1
  let latestEventDate := acc.2.1
  let latestRaceDate := acc.2.2
  let eventDate := e.eventDateSecs
  let days := daysAgo now eventDate
  let isRace := isRaceE e
  let rider :=
    if days ≤ 365 then
      { rider with
        rides := rider.rides + 1,
        races := if isRace then rider.races + 1 else rider.races }
    else rider
  let wkgFtp := wkgVal e
  let avgWkg := avgVal e
  let rider :=
    if days ≤ 90 then
      { rider with
        ftp90 := if wkgFtp > rider.ftp90 then wkgFtp else rider.ftp90,
        races90 := if isRace then rider.races90 + 1 else rider.races90 }
    else rider
  let rider :=
    if days ≤ 60 then
      { rider with
        ftp60 := if wkgFtp > rider.ftp60 then wkgFtp else rider.ftp60 }
    else rider
  let rider :=
    if days ≤ 30 then
      { rider with
        races30 := if isRace then rider.races30 + 1 else rider.races30,
        ftp30 := if wkgFtp > rider.ftp30 then wkgFtp else rider.ftp30 }
    else rider
  let rider :=
    if eventDate > latestEventDate then
      { rider with latestEvent := e.eventTitle }
    else rider
  let latestEventDate :=
    if eventDate > latestEventDate then eventDate else latestEventDate
  let rider :=
    if isRace = true ∧ eventDate > latestRaceDate then
      { rider with
        latestRace := e.eventTitle,
        latestRaceAvgWkg := avgWkg,
        latestRaceWkgFtp := wkgFtp }
    else rider
  let latestRaceDate :=
    if isRace = true ∧ eventDate > latestRaceDate then eventDate
    else latestRaceDate
  (rider, latestEventDate, latestRaceDate)

/-- The accumulator ImportRider starts from. -/
def initAcc (riderID : Int) : Rider × Int × Int :=
  ({ zwid := riderID }, zeroTime, zeroTime)

/-- The post-loop stores of the two loop-local dates. -/
def finalize (acc : Rider × Int × Int) : Rider :=
  { acc.1 with latestEventDate := acc.2.1, latestRaceDate := acc.2.2 }

/-- A concrete race event at a given date with well-formed ratios, used to
state boundary facts: `avg_wkg` is the text "1.0", `wkg_ftp` the number 2. -/
def raceEvt (d : Int) : Event :=
  ⟨"TYPE_RACE", d, "R1", JVal.arr [JVal.str "1.0"], JVal.arr [JVal.num 2]⟩

/-- The rolling maximum the loop accumulates for an `n`-day window: the fold
of `max` over the `wkg_ftp` values of in-window events, started at 0. -/
def ftpW (now n : Int) (l : List Event) : ℚ :=
  l.foldl (fun m e => if inWin now n e then max m (wkgVal e) else m) 0

end Zp

deriving instance DecidableEq for Except

namespace Zp

theorem wkgVal_eq {e : Event} {w : ℚ} (h : parseWkgFtp e.wkgFtp = Except.ok w) :
    wkgVal e = w := by simp [wkgVal, h]

theorem avgVal_eq {e : Event} {a : ℚ} (h : parseAvgWkg e.avgWkg = Except.ok a) :
    avgVal e = a := by simp [avgVal, h]

/-- On an event whose ratio extractions succeed, the loop body is the pure
step. -/
theorem stepE_eq_stepP (now : Int) (acc : Rider × Int × Int) (e : Event)
    (h : ratioOK e = true) : stepE now acc e = Except.ok (stepP now acc e) := by
  unfold ratioOK at h
  rcases hw : parseWkgFtp e.wkgFtp with er | w
  · rw [hw] at h; simp [Except.isOk, Except.toBool] at h
  rcases ha : parseAvgWkg e.avgWkg with er | a
  · rw [hw, ha] at h; simp [Except.isOk, Except.toBool] at h
  simp only [stepE, stepP, hw, ha, wkgVal_eq hw, avgVal_eq ha]
  rfl

theorem stepP_rides (now : Int) (acc : Rider × Int × Int) (e : Event) :
    (stepP now acc e).1.rides =
      (if daysAgo now e.eventDateSecs ≤ 365 then acc.1.rides + 1 else acc.1.rides) := by
  simp [stepP, apply_ite Rider.rides]

theorem stepP_races (now : Int) (acc : Rider × Int × Int) (e : Event) :
    (stepP now acc e).1.races =
      (if daysAgo now e.eventDateSecs ≤ 365 then
        (if isRaceE e then acc.1.races + 1 else acc.1.races) else acc.1.races) := by
  simp [stepP, apply_ite Rider.races, isRaceE]

theorem stepP_races90 (now : Int) (acc : Rider × Int × Int) (e : Event) :
    (stepP now acc e).1.races90 =
      (if daysAgo now e.eventDateSecs ≤ 90 then
        (if isRaceE e then acc.1.races90 + 1 else acc.1.races90) else acc.1.races90) := by
  simp [stepP, apply_ite Rider.races90, isRaceE]

theorem stepP_races30 (now : Int) (acc : Rider × Int × Int) (e : Event) :
    (stepP now acc e).1.races30 =
      (if daysAgo now e.eventDateSecs ≤ 30 then
        (if isRaceE e then acc.1.races30 + 1 else acc.1.races30) else acc.1.races30) := by
  simp [stepP, apply_ite Rider.races30, isRaceE]

theorem stepP_ftp90 (now : Int) (acc : Rider × Int × Int) (e : Event) :
    (stepP now acc e).1.ftp90 =
      (if daysAgo now e.eventDateSecs ≤ 90 then
        (if wkgVal e > acc.1.ftp90 then wkgVal e else acc.1.ftp90) else acc.1.ftp90) := by
  simp [stepP, apply_ite Rider.ftp90]

theorem stepP_ftp60 (now : Int) (acc : Rider × Int × Int) (e : Event) :
    (stepP now acc e).1.ftp60 =
      (if daysAgo now e.eventDateSecs ≤ 60 then
        (if wkgVal e > acc.1.ftp60 then wkgVal e else acc.1.ftp60) else acc.1.ftp60) := by
  simp [stepP, apply_ite Rider.ftp60]

theorem stepP_ftp30 (now : Int) (acc : Rider × Int × Int) (e : Event) :
    (stepP now acc e).1.ftp30 =
      (if daysAgo now e.eventDateSecs ≤ 30 then
        (if wkgVal e > acc.1.ftp30 then wkgVal e else acc.1.ftp30) else acc.1.ftp30) := by
  simp [stepP, apply_ite Rider.ftp30]

theorem stepP_led (now : Int) (acc : Rider × Int × Int) (e : Event) :
    (stepP now acc e).2.1 = max acc.2.1 e.eventDateSecs := by
  simp only [stepP]
  split_ifs with h
  · exact (max_eq_right h.le).symm
  · exact (max_eq_left (le_of_not_lt h)).symm

theorem stepP_lrd (now : Int) (acc : Rider × Int × Int) (e : Event) :
    (stepP now acc e).2.2 =
      (if isRaceE e then max acc.2.2 e.eventDateSecs else acc.2.2) := by
  simp only [stepP, isRaceE]
  by_cases h : strContains e.eventType "RACE" = true
  · simp only [h, true_and, if_true]
    split_ifs with h2
    · exact (max_eq_right h2.le).symm
    · exact (max_eq_left (le_of_not_lt h2)).symm
  · simp [h]

theorem stepP_latestEvent (now : Int) (acc : Rider × Int × Int) (e : Event) :
    (stepP now acc e).1.latestEvent =
      (if e.eventDateSecs > acc.2.1 then e.eventTitle else acc.1.latestEvent) := by
  simp [stepP, apply_ite Rider.latestEvent]

theorem stepP_latestRace (now : Int) (acc : Rider × Int × Int) (e : Event) :
    (stepP now acc e).1.latestRace =
      (if isRaceE e = true ∧ e.eventDateSecs > acc.2.2 then e.eventTitle
       else acc.1.latestRace) := by
  simp [stepP, apply_ite Rider.latestRace, isRaceE]

theorem stepP_latestRaceAvgWkg (now : Int) (acc : Rider × Int × Int) (e : Event) :
    (stepP now acc e).1.latestRaceAvgWkg =
      (if isRaceE e = true ∧ e.eventDateSecs > acc.2.2 then avgVal e
       else acc.1.latestRaceAvgWkg) := by
  simp [stepP, apply_ite Rider.latestRaceAvgWkg, isRaceE]

theorem stepP_latestRaceWkgFtp (now : Int) (acc : Rider × Int × Int) (e : Event) :
    (stepP now acc e).1.latestRaceWkgFtp =
      (if isRaceE e = true ∧ e.eventDateSecs > acc.2.2 then wkgVal e
       else acc.1.latestRaceWkgFtp) := by
  simp [stepP, apply_ite Rider.latestRaceWkgFtp, isRaceE]

theorem stepP_zwid (now : Int) (acc : Rider × Int × Int) (e : Event) :
    (stepP now acc e).1.zwid = acc.1.zwid := by
  simp [stepP, apply_ite Rider.zwid]

theorem stepP_name (now : Int) (acc : Rider × Int × Int) (e : Event) :
    (stepP now acc e).1.name = acc.1.name := by
  simp [stepP, apply_ite Rider.name]

/-- On histories whose ratio extractions all succeed, the whole loop is the
pure fold. -/
theorem foldlM_stepE (now : Int) (l : List Event) (acc : Rider × Int × Int)
    (h : ∀ e ∈ l, ratioOK e = true) :
    l.foldlM (stepE now) acc = Except.ok (l.foldl (stepP now) acc) := by
  induction l generalizing acc with
  | nil => rfl
  | cons e es ih =>
    have he : ratioOK e = true := h e (List.mem_cons_self e es)
    have hes : ∀ x ∈ es, ratioOK x = true := fun x hx => h x (List.mem_cons_of_mem e hx)
    simp only [List.foldlM_cons, stepE_eq_stepP now acc e he]
    simpa using ih (stepP now acc e) hes

/-- ImportRider on well-formed histories, as a pure fold; the empty-history
early return produces the same rider the general formula does. -/
theorem importRider_eq (now riderID : Int) (l : List Event)
    (h : ∀ e ∈ l, ratioOK e = true) :
    importRider now riderID l =
      Except.ok (finalize (l.foldl (stepP now) (initAcc riderID))) := by
  cases l with
  | nil => rfl
  | cons e es =>
    simp only [importRider]
    rw [if_neg (by simp)]
    rw [foldlM_stepE now (e :: es) _ h]
    rfl

theorem ite_gt_max {α : Type} [LinearOrder α] (a b : α) :
    (if b > a then b else a) = max a b := by
  split_ifs with h
  · exact (max_eq_right h.le).symm
  · exact (max_eq_left (le_of_not_lt h)).symm

theorem fold_rides (now : Int) (l : List Event) (acc : Rider × Int × Int) :
    (l.foldl (stepP now) acc).1.rides = acc.1.rides + l.countP (inWin now 365) := by
  induction l generalizing acc with
  | nil => simp
  | cons e es ih =>
    simp only [List.foldl_cons, ih, stepP_rides, List.countP_cons]
    by_cases h : daysAgo now e.eventDateSecs ≤ 365 <;> simp [inWin, h] <;> omega

theorem fold_races (now : Int) (l : List Event) (acc : Rider × Int × Int) :
    (l.foldl (stepP now) acc).1.races = acc.1.races + l.countP (raceIn now 365) := by
  induction l generalizing acc with
  | nil => simp
  | cons e es ih =>
    simp only [List.foldl_cons, ih, stepP_races, List.countP_cons, raceIn, inWin]
    by_cases h : daysAgo now e.eventDateSecs ≤ 365 <;>
      by_cases hr : isRaceE e <;> simp [h, hr] <;> omega

theorem fold_races90 (now : Int) (l : List Event) (acc : Rider × Int × Int) :
    (l.foldl (stepP now) acc).1.races90 = acc.1.races90 + l.countP (raceIn now 90) := by
  induction l generalizing acc with
  | nil => simp
  | cons e es ih =>
    simp only [List.foldl_cons, ih, stepP_races90, List.countP_cons, raceIn, inWin]
    by_cases h : daysAgo now e.eventDateSecs ≤ 90 <;>
      by_cases hr : isRaceE e <;> simp [h, hr] <;> omega

theorem fold_races30 (now : Int) (l : List Event) (acc : Rider × Int × Int) :
    (l.foldl (stepP now) acc).1.races30 = acc.1.races30 + l.countP (raceIn now 30) := by
  induction l generalizing acc with
  | nil => simp
  | cons e es ih =>
    simp only [List.foldl_cons, ih, stepP_races30, List.countP_cons, raceIn, inWin]
    by_cases h : daysAgo now e.eventDateSecs ≤ 30 <;>
      by_cases hr : isRaceE e <;> simp [h, hr] <;> omega

theorem fold_ftp90 (now : Int) (l : List Event) (acc : Rider × Int × Int) :
    (l.foldl (stepP now) acc).1.ftp90 =
      l.foldl (fun m e => if inWin now 90 e then max m (wkgVal e) else m) acc.1.ftp90 := by
  induction l generalizing acc with
  | nil => rfl
  | cons e es ih =>
    simp only [List.foldl_cons, ih, stepP_ftp90, ite_gt_max, inWin]
    by_cases h : daysAgo now e.eventDateSecs ≤ 90 <;> simp [h]

theorem fold_ftp60 (now : Int) (l : List Event) (acc : Rider × Int × Int) :
    (l.foldl (stepP now) acc).1.ftp60 =
      l.foldl (fun m e => if inWin now 60 e then max m (wkgVal e) else m) acc.1.ftp60 := by
  induction l generalizing acc with
  | nil => rfl
  | cons e es ih =>
    simp only [List.foldl_cons, ih, stepP_ftp60, ite_gt_max, inWin]
    by_cases h : daysAgo now e.eventDateSecs ≤ 60 <;> simp [h]

theorem fold_ftp30 (now : Int) (l : List Event) (acc : Rider × Int × Int) :
    (l.foldl (stepP now) acc).1.ftp30 =
      l.foldl (fun m e => if inWin now 30 e then max m (wkgVal e) else m) acc.1.ftp30 := by
  induction l generalizing acc with
  | nil => rfl
  | cons e es ih =>
    simp only [List.foldl_cons, ih, stepP_ftp30, ite_gt_max, inWin]
    by_cases h : daysAgo now e.eventDateSecs ≤ 30 <;> simp [h]

theorem fold_led (now : Int) (l : List Event) (acc : Rider × Int × Int) :
    (l.foldl (stepP now) acc).2.1 =
      l.foldl (fun m e => max m e.eventDateSecs) acc.2.1 := by
  induction l generalizing acc with
  | nil => rfl
  | cons e es ih => simp only [List.foldl_cons, ih, stepP_led]

theorem fold_lrd (now : Int) (l : List Event) (acc : Rider × Int × Int) :
    (l.foldl (stepP now) acc).2.2 =
      l.foldl (fun m e => if isRaceE e then max m e.eventDateSecs else m) acc.2.2 := by
  induction l generalizing acc with
  | nil => rfl
  | cons e es ih => simp only [List.foldl_cons, ih, stepP_lrd]

theorem fold_zwid (now : Int) (l : List Event) (acc : Rider × Int × Int) :
    (l.foldl (stepP now) acc).1.zwid = acc.1.zwid := by
  induction l generalizing acc with
  | nil => rfl
  | cons e es ih => simp only [List.foldl_cons, ih, stepP_zwid]

theorem condMax_rightComm {α β : Type} [LinearOrder α] (p : β → Bool) (g : β → α) :
    RightCommutative (fun (m : α) (e : β) => if p e then max m (g e) else m) := by
  constructor
  intro b a1 a2
  by_cases h1 : p a1 <;> by_cases h2 : p a2 <;>
    simp [h1, h2, sup_right_comm]

theorem max_rightComm {α β : Type} [LinearOrder α] (g : β → α) :
    RightCommutative (fun (m : α) (e : β) => max m (g e)) := by
  constructor
  intro b a1 a2
  simp [sup_right_comm]

theorem foldl_condMax_le_init {α β : Type} [LinearOrder α] (p : β → Bool) (g : β → α)
    (l : List β) (b : α) :
    b ≤ l.foldl (fun m e => if p e then max m (g e) else m) b := by
  induction l generalizing b with
  | nil => exact le_refl b
  | cons e es ih =>
    refine le_trans ?_ (ih _)
    by_cases h : p e <;> simp [h]

theorem foldl_condMax_ub {α β : Type} [LinearOrder α] (p : β → Bool) (g : β → α)
    (l : List β) (b : α) (e : β) :
    e ∈ l → p e = true → g e ≤ l.foldl (fun m e => if p e then max m (g e) else m) b := by
  induction l generalizing b with
  | nil => intro he _; cases he
  | cons x xs ih =>
    intro he hp
    rcases List.mem_cons.mp he with rfl | hmem
    · refine le_trans ?_ (foldl_condMax_le_init p g xs _)
      simp [hp]
    · exact ih _ hmem hp

theorem foldl_condMax_cases {α β : Type} [LinearOrder α] (p : β → Bool) (g : β → α)
    (l : List β) (b : α) :
    l.foldl (fun m e => if p e then max m (g e) else m) b = b ∨
      ∃ e ∈ l, p e = true ∧
        l.foldl (fun m e => if p e then max m (g e) else m) b = g e := by
  induction l generalizing b with
  | nil => exact Or.inl rfl
  | cons x xs ih =>
    rcases ih (if p x then max b (g x) else b) with h | ⟨e, he, hpe, hval⟩
    · simp only [List.foldl_cons] at *
      by_cases hx : p x
      · rw [h]
        simp only [hx, if_true]
        rcases max_choice b (g x) with hm | hm
        · exact Or.inl hm
        · exact Or.inr ⟨x, List.mem_cons_self x xs, hx, hm⟩
      · rw [h]; simp [hx]
    · refine Or.inr ⟨e, List.mem_cons_of_mem x he, hpe, ?_⟩
      simpa using hval

theorem foldl_condMax_allfalse {α β : Type} [LinearOrder α] (p : β → Bool) (g : β → α)
    (l : List β) (b : α) (h : ∀ e ∈ l, p e = false) :
    l.foldl (fun m e => if p e then max m (g e) else m) b = b := by
  induction l generalizing b with
  | nil => rfl
  | cons x xs ih =>
    have hx := h x (List.mem_cons_self x xs)
    simp only [List.foldl_cons, hx, if_false]
    exact ih _ fun e he => h e (List.mem_cons_of_mem x he)

end Zp

namespace Zp

/-- C9: aggregating an empty event sequence succeeds and yields the defined
empty snapshot: all counters zero, all rolling maxima zero, both "latest"
pointers unset (empty titles, Go zero time, zero ratios). -/
theorem importRider_empty (now riderID : Int) :
    importRider now riderID [] =
      Except.ok
        { name := "", zwid := riderID, latestEventDate := zeroTime,
          rides := 0, races := 0, races90 := 0, races30 := 0,
          ftp90 := 0, ftp60 := 0, ftp30 := 0,
          latestRace := "", latestRaceDate := zeroTime, latestEvent := "",
          latestRaceAvgWkg := 0, latestRaceWkgFtp := 0 } := rfl

/-- C7: timestamp decoding never returns an error; a string, an absent field
and a non-integral number all default to 0 (the epoch), while an in-range
well-formed integer is kept as Unix seconds. -/
theorem unmarshal_total_defaults :
    (∀ v : JVal, ∃ n : Int, EventDateType.unmarshalJSON v = Except.ok n) ∧
    (∀ s : String, EventDateType.unmarshalJSON (JVal.str s) = Except.ok 0) ∧
    EventDateType.unmarshalJSON JVal.null = Except.ok 0 ∧
    (∀ n : Int, -(2 ^ 63) ≤ n → n < 2 ^ 63 →
      EventDateType.unmarshalJSON (JVal.num (n : ℚ)) = Except.ok n) ∧
    (∀ q : ℚ, q.den ≠ 1 → EventDateType.unmarshalJSON (JVal.num q) = Except.ok 0) := by
  refine ⟨fun v => ?_, fun s => rfl, rfl, fun n h1 h2 => ?_, fun q hq => ?_⟩
  · unfold EventDateType.unmarshalJSON
    exact ⟨_, rfl⟩
  · simp only [EventDateType.unmarshalJSON]
    rw [Rat.den_intCast, Rat.num_intCast, if_pos ⟨rfl, h1, h2⟩]
  · simp [EventDateType.unmarshalJSON, hq]

theorem unmarshal_total_defaults_witness :
    EventDateType.unmarshalJSON (JVal.num ((1600000000 : Int) : ℚ)) =
      Except.ok 1600000000 ∧
    EventDateType.unmarshalJSON (JVal.str "") = Except.ok 0 :=
  ⟨unmarshal_total_defaults.2.2.2.1 1600000000 (by decide) (by decide),
   unmarshal_total_defaults.2.1 ""⟩

/-- C1 (amended): the wkg_ftp field normalizes a numeric first element and a
numeric-text first element identically, trying the numeric interpretation
first; the avg_wkg field accepts only numeric text, and a numeric first
element makes its string assertion fail. -/
theorem ratio_parse_asymmetry (s : String) (q : ℚ) (rest : List JVal) (w : ℚ)
    (h : parseFloat s = some q) :
    parseWkgFtp (JVal.arr (JVal.num w :: rest)) = Except.ok w ∧
    parseWkgFtp (JVal.arr (JVal.str s :: rest)) = Except.ok q ∧
    parseAvgWkg (JVal.arr (JVal.str s :: rest)) = Except.ok q ∧
    parseAvgWkg (JVal.arr (JVal.num w :: rest)) =
      Except.error (GoAbort.typeAssertPanic "avg_wkg") := by
  refine ⟨rfl, ?_, ?_, rfl⟩ <;> simp [parseWkgFtp, parseAvgWkg, h]

theorem ratio_parse_asymmetry_cex :
    parseWkgFtp (JVal.arr [JVal.num (mkRat 13 4)]) = Except.ok (mkRat 13 4) ∧
    parseWkgFtp (JVal.arr [JVal.str "3.25"]) = Except.ok (mkRat 13 4) ∧
    parseAvgWkg (JVal.arr [JVal.str "3.25"]) = Except.ok (mkRat 13 4) ∧
    parseAvgWkg (JVal.arr [JVal.num (mkRat 13 4)]) =
      Except.error (GoAbort.typeAssertPanic "avg_wkg") := by
  refine ⟨by decide, by decide, by decide, by decide⟩

theorem ratio_parse_asymmetry_witness :
    parseWkgFtp (JVal.arr (JVal.num (mkRat 3 2) :: [])) = Except.ok (mkRat 3 2) ∧
    parseWkgFtp (JVal.arr (JVal.str "1.5" :: [])) = Except.ok (mkRat 3 2) ∧
    parseAvgWkg (JVal.arr (JVal.str "1.5" :: [])) = Except.ok (mkRat 3 2) ∧
    parseAvgWkg (JVal.arr (JVal.num (mkRat 3 2) :: [])) =
      Except.error (GoAbort.typeAssertPanic "avg_wkg") :=
  ratio_parse_asymmetry "1.5" (mkRat 3 2) [] (mkRat 3 2) (by decide)

/-- C8 (amended): malformed or missing ratio data terminates the process
instead of returning an error value to the caller. -/
theorem malformed_ratio_aborts (now riderID : Int) (ty ti : String) (d : Int)
    (a : JVal) (s : String) (hbad : parseFloat s = none) :
    importRider now riderID [⟨ty, d, ti, a, JVal.arr []⟩] =
      Except.error (GoAbort.indexPanic "wkg_ftp") ∧
    importRider now riderID [⟨ty, d, ti, a, JVal.null⟩] =
      Except.error (GoAbort.typeAssertPanic "wkg_ftp") ∧
    importRider now riderID [⟨ty, d, ti, a, JVal.arr [JVal.str s]⟩] =
      Except.error (GoAbort.fatalParse "wkg_ftp") ∧
    importRider now riderID [⟨ty, d, ti, JVal.arr [JVal.num 1], JVal.arr [JVal.num 1]⟩] =
      Except.error (GoAbort.typeAssertPanic "avg_wkg") ∧
    importRider now riderID [⟨ty, d, ti, JVal.arr [JVal.str s], JVal.arr [JVal.num 1]⟩] =
      Except.error (GoAbort.fatalParse "avg_wkg") := by
  refine ⟨?_, ?_, ?_, ?_, ?_⟩ <;>
    · simp [importRider, stepE, parseWkgFtp, parseAvgWkg, hbad]
      rfl

theorem malformed_ratio_cex :
    importRider 1000 7 [⟨"TYPE_RACE", 0, "E", JVal.arr [JVal.str "1.0"], JVal.arr []⟩] =
      Except.error (GoAbort.indexPanic "wkg_ftp") := by decide

theorem malformed_ratio_aborts_witness :
    importRider 0 7 [⟨"T", 0, "E", JVal.null, JVal.arr []⟩] =
      Except.error (GoAbort.indexPanic "wkg_ftp") ∧
    importRider 0 7 [⟨"T", 0, "E", JVal.null, JVal.null⟩] =
      Except.error (GoAbort.typeAssertPanic "wkg_ftp") ∧
    importRider 0 7 [⟨"T", 0, "E", JVal.null, JVal.arr [JVal.str "zz"]⟩] =
      Except.error (GoAbort.fatalParse "wkg_ftp") ∧
    importRider 0 7 [⟨"T", 0, "E", JVal.arr [JVal.num 1], JVal.arr [JVal.num 1]⟩] =
      Except.error (GoAbort.typeAssertPanic "avg_wkg") ∧
    importRider 0 7 [⟨"T", 0, "E", JVal.arr [JVal.str "zz"], JVal.arr [JVal.num 1]⟩] =
      Except.error (GoAbort.fatalParse "avg_wkg") :=
  malformed_ratio_aborts 0 7 "T" "E" 0 JVal.null "zz" (by decide)

end Zp

namespace Zp

theorem raceIn_mono (now : Int) {n m : Int} (hnm : n ≤ m) (e : Event) :
    raceIn now n e = true → raceIn now m e = true := by
  simp only [raceIn, inWin, Bool.and_eq_true, decide_eq_true_eq]
  rintro ⟨h1, h2⟩
  exact ⟨h1, le_trans h2 hnm⟩

theorem raceIn_imp_inWin (now n : Int) (e : Event) :
    raceIn now n e = true → inWin now n e = true := by
  simp only [raceIn, Bool.and_eq_true]
  rintro ⟨_, h⟩
  exact h

/-- C3: the finished snapshot's counters respect the nested inclusive
windows. -/
theorem counter_monotone (now riderID : Int) (l : List Event)
    (h : ∀ e ∈ l, ratioOK e = true) :
    ∃ r, importRider now riderID l = Except.ok r ∧
      r.races30 ≤ r.races90 ∧ r.races90 ≤ r.races ∧ r.races ≤ r.rides := by
  refine ⟨_, importRider_eq now riderID l h, ?_, ?_, ?_⟩
  · simp only [finalize, fold_races30, fold_races90, initAcc]
    simpa using List.countP_mono_left
      (fun e _ hp => raceIn_mono now (by norm_num) e hp)
  · simp only [finalize, fold_races90, fold_races, initAcc]
    simpa using List.countP_mono_left
      (fun e _ hp => raceIn_mono now (by norm_num) e hp)
  · simp only [finalize, fold_races, fold_rides, initAcc]
    simpa using List.countP_mono_left
      (fun e _ hp => raceIn_imp_inWin now 365 e hp)

theorem counter_monotone_witness :
    ∃ r, importRider 100 5 [raceEvt 0] = Except.ok r ∧
      r.races30 ≤ r.races90 ∧ r.races90 ≤ r.races ∧ r.races ≤ r.rides :=
  counter_monotone 100 5 [raceEvt 0] (by decide)

theorem ftpW_spec (now n : Int) (l : List Event) :
    0 ≤ ftpW now n l ∧
    (∀ e ∈ l, daysAgo now e.eventDateSecs ≤ n → wkgVal e ≤ ftpW now n l) ∧
    (ftpW now n l = 0 ∨
      ∃ e ∈ l, daysAgo now e.eventDateSecs ≤ n ∧ ftpW now n l = wkgVal e) ∧
    ((∀ e ∈ l, daysAgo now e.eventDateSecs ≤ n → wkgVal e ≤ 0) → ftpW now n l = 0) := by
  have hub : ∀ e ∈ l, daysAgo now e.eventDateSecs ≤ n → wkgVal e ≤ ftpW now n l := by
    intro e he hd
    exact foldl_condMax_ub (inWin now n) wkgVal l 0 e he (by simp [inWin, hd])
  have hinit : (0 : ℚ) ≤ ftpW now n l := foldl_condMax_le_init (inWin now n) wkgVal l 0
  have hcases := foldl_condMax_cases (inWin now n) wkgVal l (0 : ℚ)
  refine ⟨hinit, hub, ?_, ?_⟩
  · rcases hcases with h0 | ⟨e, he, hpe, hval⟩
    · exact Or.inl h0
    · refine Or.inr ⟨e, he, ?_, hval⟩
      simpa [inWin] using hpe
  · intro hall
    rcases hcases with h0 | ⟨e, he, hpe, hval⟩
    · exact h0
    · have hle : wkgVal e ≤ 0 := hall e he (by simpa [inWin] using hpe)
      have : ftpW now n l ≤ 0 := by unfold ftpW; rw [hval]; exact hle
      exact le_antisymm this hinit

/-- C4: each rolling maximum equals the fold of max over in-window wkg_ftp
values started at zero: it is an upper bound of the in-window values, it is
zero or attained by an in-window event, and it is zero whenever no in-window
event has a positive value (in particular when none qualifies). -/
theorem ftp_maxima (now riderID : Int) (l : List Event)
    (h : ∀ e ∈ l, ratioOK e = true) :
    ∃ r, importRider now riderID l = Except.ok r ∧
      (r.ftp90 = ftpW now 90 l ∧ r.ftp60 = ftpW now 60 l ∧ r.ftp30 = ftpW now 30 l) ∧
      (0 ≤ r.ftp90 ∧
        (∀ e ∈ l, daysAgo now e.eventDateSecs ≤ 90 → wkgVal e ≤ r.ftp90) ∧
        (r.ftp90 = 0 ∨
          ∃ e ∈ l, daysAgo now e.eventDateSecs ≤ 90 ∧ r.ftp90 = wkgVal e) ∧
        ((∀ e ∈ l, daysAgo now e.eventDateSecs ≤ 90 → wkgVal e ≤ 0) → r.ftp90 = 0)) ∧
      (0 ≤ r.ftp60 ∧
        (∀ e ∈ l, daysAgo now e.eventDateSecs ≤ 60 → wkgVal e ≤ r.ftp60) ∧
        (r.ftp60 = 0 ∨
          ∃ e ∈ l, daysAgo now e.eventDateSecs ≤ 60 ∧ r.ftp60 = wkgVal e) ∧
        ((∀ e ∈ l, daysAgo now e.eventDateSecs ≤ 60 → wkgVal e ≤ 0) → r.ftp60 = 0)) ∧
      (0 ≤ r.ftp30 ∧
        (∀ e ∈ l, daysAgo now e.eventDateSecs ≤ 30 → wkgVal e ≤ r.ftp30) ∧
        (r.ftp30 = 0 ∨
          ∃ e ∈ l, daysAgo now e.eventDateSecs ≤ 30 ∧ r.ftp30 = wkgVal e) ∧
        ((∀ e ∈ l, daysAgo now e.eventDateSecs ≤ 30 → wkgVal e ≤ 0) → r.ftp30 = 0)) := by
  refine ⟨_, importRider_eq now riderID l h, ⟨?_, ?_, ?_⟩, ?_, ?_, ?_⟩
  · simp only [finalize, fold_ftp90, initAcc, ftpW]
  · simp only [finalize, fold_ftp60, initAcc, ftpW]
  · simp only [finalize, fold_ftp30, initAcc, ftpW]
  · simpa only [finalize, fold_ftp90, initAcc, ftpW] using ftpW_spec now 90 l
  · simpa only [finalize, fold_ftp60, initAcc, ftpW] using ftpW_spec now 60 l
  · simpa only [finalize, fold_ftp30, initAcc, ftpW] using ftpW_spec now 30 l

theorem ftp_maxima_witness :
    ∃ r, importRider 100 5 [raceEvt 0] = Except.ok r ∧
      (r.ftp90 = ftpW 100 90 [raceEvt 0] ∧ r.ftp60 = ftpW 100 60 [raceEvt 0] ∧
        r.ftp30 = ftpW 100 30 [raceEvt 0]) ∧
      (0 ≤ r.ftp90 ∧
        (∀ e ∈ [raceEvt 0], daysAgo 100 e.eventDateSecs ≤ 90 → wkgVal e ≤ r.ftp90) ∧
        (r.ftp90 = 0 ∨
          ∃ e ∈ [raceEvt 0], daysAgo 100 e.eventDateSecs ≤ 90 ∧ r.ftp90 = wkgVal e) ∧
        ((∀ e ∈ [raceEvt 0], daysAgo 100 e.eventDateSecs ≤ 90 → wkgVal e ≤ 0) →
          r.ftp90 = 0)) ∧
      (0 ≤ r.ftp60 ∧
        (∀ e ∈ [raceEvt 0], daysAgo 100 e.eventDateSecs ≤ 60 → wkgVal e ≤ r.ftp60) ∧
        (r.ftp60 = 0 ∨
          ∃ e ∈ [raceEvt 0], daysAgo 100 e.eventDateSecs ≤ 60 ∧ r.ftp60 = wkgVal e) ∧
        ((∀ e ∈ [raceEvt 0], daysAgo 100 e.eventDateSecs ≤ 60 → wkgVal e ≤ 0) →
          r.ftp60 = 0)) ∧
      (0 ≤ r.ftp30 ∧
        (∀ e ∈ [raceEvt 0], daysAgo 100 e.eventDateSecs ≤ 30 → wkgVal e ≤ r.ftp30) ∧
        (r.ftp30 = 0 ∨
          ∃ e ∈ [raceEvt 0], daysAgo 100 e.eventDateSecs ≤ 30 ∧ r.ftp30 = wkgVal e) ∧
        ((∀ e ∈ [raceEvt 0], daysAgo 100 e.eventDateSecs ≤ 30 → wkgVal e ≤ 0) →
          r.ftp30 = 0)) :=
  ftp_maxima 100 5 [raceEvt 0] (by decide)

end Zp

namespace Zp

/-- C6: every counter, every rolling maximum and both latest dates are
invariant under permutation of the event history; only the tie-break choice
of titles and latest-race ratios can depend on order. -/
theorem perm_invariant (now riderID : Int) (l l2 : List Event) (hperm : l.Perm l2)
    (h : ∀ e ∈ l, ratioOK e = true) :
    ∃ r r2, importRider now riderID l = Except.ok r ∧
      importRider now riderID l2 = Except.ok r2 ∧
      r.rides = r2.rides ∧ r.races = r2.races ∧ r.races90 = r2.races90 ∧
      r.races30 = r2.races30 ∧ r.ftp90 = r2.ftp90 ∧ r.ftp60 = r2.ftp60 ∧
      r.ftp30 = r2.ftp30 ∧ r.latestEventDate = r2.latestEventDate ∧
      r.latestRaceDate = r2.latestRaceDate := by
  have h2 : ∀ e ∈ l2, ratioOK e = true := fun e he => h e (hperm.mem_iff.mpr he)
  refine ⟨_, _, importRider_eq now riderID l h, importRider_eq now riderID l2 h2,
    ?_, ?_, ?_, ?_, ?_, ?_, ?_, ?_, ?_⟩
  · simp only [finalize, fold_rides, initAcc]
    exact congrArg (0 + ·) (hperm.countP_eq _)
  · simp only [finalize, fold_races, initAcc]
    exact congrArg (0 + ·) (hperm.countP_eq _)
  · simp only [finalize, fold_races90, initAcc]
    exact congrArg (0 + ·) (hperm.countP_eq _)
  · simp only [finalize, fold_races30, initAcc]
    exact congrArg (0 + ·) (hperm.countP_eq _)
  · simp only [finalize, fold_ftp90, initAcc]
    haveI := condMax_rightComm (inWin now 90) wkgVal
    exact hperm.foldl_eq 0
  · simp only [finalize, fold_ftp60, initAcc]
    haveI := condMax_rightComm (inWin now 60) wkgVal
    exact hperm.foldl_eq 0
  · simp only [finalize, fold_ftp30, initAcc]
    haveI := condMax_rightComm (inWin now 30) wkgVal
    exact hperm.foldl_eq 0
  · simp only [finalize, fold_led, initAcc]
    haveI := max_rightComm Event.eventDateSecs
    exact hperm.foldl_eq zeroTime
  · simp only [finalize, fold_lrd, initAcc]
    haveI := condMax_rightComm isRaceE Event.eventDateSecs
    exact hperm.foldl_eq zeroTime

theorem perm_invariant_witness :
    ∃ r r2, importRider 100 5 [raceEvt 0, raceEvt 40] = Except.ok r ∧
      importRider 100 5 [raceEvt 40, raceEvt 0] = Except.ok r2 ∧
      r.rides = r2.rides ∧ r.races = r2.races ∧ r.races90 = r2.races90 ∧
      r.races30 = r2.races30 ∧ r.ftp90 = r2.ftp90 ∧ r.ftp60 = r2.ftp60 ∧
      r.ftp30 = r2.ftp30 ∧ r.latestEventDate = r2.latestEventDate ∧
      r.latestRaceDate = r2.latestRaceDate :=
  perm_invariant 100 5 [raceEvt 0, raceEvt 40] [raceEvt 40, raceEvt 0]
    (List.Perm.swap (raceEvt 40) (raceEvt 0) []) (by decide)

/-- C5: among two events tied on date, the latest-event and latest-race
pointers (with the latest-race ratios) keep the event appearing first in the
input; the update comparison is strict. -/
theorem tie_break_first (now riderID d : Int) (t1 t2 ty1 ty2 s1 s2 : String)
    (a1 a2 w1 w2 : ℚ) (h1 : parseFloat s1 = some a1) (h2 : parseFloat s2 = some a2)
    (hr1 : strContains ty1 "RACE" = true) (hr2 : strContains ty2 "RACE" = true)
    (hd : zeroTime < d) :
    ∃ r, importRider now riderID
        [⟨ty1, d, t1, JVal.arr [JVal.str s1], JVal.arr [JVal.num w1]⟩,
         ⟨ty2, d, t2, JVal.arr [JVal.str s2], JVal.arr [JVal.num w2]⟩] = Except.ok r ∧
      r.latestEvent = t1 ∧ r.latestEventDate = d ∧ r.latestRace = t1 ∧
      r.latestRaceDate = d ∧ r.latestRaceAvgWkg = a1 ∧ r.latestRaceWkgFtp = w1 := by
  have hok : ∀ e ∈ ([⟨ty1, d, t1, JVal.arr [JVal.str s1], JVal.arr [JVal.num w1]⟩,
      ⟨ty2, d, t2, JVal.arr [JVal.str s2], JVal.arr [JVal.num w2]⟩] : List Event),
      ratioOK e = true := by
    intro e he
    rcases List.mem_cons.mp he with rfl | he
    · simp [ratioOK, parseWkgFtp, parseAvgWkg, h1, Except.isOk, Except.toBool]
    rcases List.mem_singleton.mp he with rfl
    simp [ratioOK, parseWkgFtp, parseAvgWkg, h2, Except.isOk, Except.toBool]
  have hmax : max zeroTime d = d := max_eq_right hd.le
  have hav1 : avgVal (⟨ty1, d, t1, JVal.arr [JVal.str s1],
      JVal.arr [JVal.num w1]⟩ : Event) = a1 := by
    simp [avgVal, parseAvgWkg, h1]
  refine ⟨_, importRider_eq now riderID _ hok, ?_, ?_, ?_, ?_, ?_, ?_⟩ <;>
    simp [finalize, stepP_latestEvent, stepP_led, stepP_latestRace, stepP_lrd,
      stepP_latestRaceAvgWkg, stepP_latestRaceWkgFtp, initAcc, isRaceE,
      hr1, hr2, hmax, hav1, hd, lt_irrefl, wkgVal, parseWkgFtp]

theorem tie_break_first_witness :
    ∃ r, importRider 1000 7
        [⟨"TYPE_RACE", 5, "A", JVal.arr [JVal.str "3.25"], JVal.arr [JVal.num (mkRat 2 1)]⟩,
         ⟨"TYPE_RACE", 5, "B", JVal.arr [JVal.str "1.5"], JVal.arr [JVal.num (mkRat 3 1)]⟩] =
        Except.ok r ∧
      r.latestEvent = "A" ∧ r.latestEventDate = 5 ∧ r.latestRace = "A" ∧
      r.latestRaceDate = 5 ∧ r.latestRaceAvgWkg = mkRat 13 4 ∧
      r.latestRaceWkgFtp = mkRat 2 1 :=
  tie_break_first 1000 7 5 "A" "B" "TYPE_RACE" "TYPE_RACE" "3.25" "1.5"
    (mkRat 13 4) (mkRat 3 2) (mkRat 2 1) (mkRat 3 1) (by decide) (by decide)
    (by decide) (by decide) (by decide)

end Zp

namespace Zp

theorem daysAgo_nonpos_of_future (now d : Int) (h : now < d) : daysAgo now d ≤ 0 := by
  rw [daysAgo, show now - d = -(d - now) by ring, Int.neg_tdiv]
  exact neg_nonpos.mpr (Int.tdiv_nonneg (by omega) (by norm_num))

theorem foldl_max_dates_zero (l : List Event) (b : Int)
    (h : ∀ e ∈ l, e.eventDateSecs = 0) :
    l.foldl (fun m e => max m e.eventDateSecs) b = if l.isEmpty then b else max b 0 := by
  induction l generalizing b with
  | nil => rfl
  | cons x xs ih =>
    have hx := h x (List.mem_cons_self x xs)
    simp only [List.foldl_cons, hx, List.isEmpty_cons]
    rw [ih _ fun e he => h e (List.mem_cons_of_mem x he)]
    by_cases hxs : xs.isEmpty <;> simp [hxs, max_assoc]

/-- C2: window membership of an event is decided by daysAgo <= N where
daysAgo truncates the elapsed whole days toward zero; exactly N days old is
in the N-day window, exactly N+1 days old is out of it, and a future-dated
event has daysAgo <= 0 and so is counted everywhere. -/
theorem window_membership (now riderID d : Int) :
    ∃ r, importRider now riderID [raceEvt d] = Except.ok r ∧
      r.rides = (if daysAgo now d ≤ 365 then 1 else 0) ∧
      r.races = (if daysAgo now d ≤ 365 then 1 else 0) ∧
      r.races90 = (if daysAgo now d ≤ 90 then 1 else 0) ∧
      r.races30 = (if daysAgo now d ≤ 30 then 1 else 0) ∧
      r.ftp90 = (if daysAgo now d ≤ 90 then 2 else 0) ∧
      r.ftp60 = (if daysAgo now d ≤ 60 then 2 else 0) ∧
      r.ftp30 = (if daysAgo now d ≤ 30 then 2 else 0) ∧
      daysAgo now d = Int.tdiv (now - d) 86400 ∧
      (∀ n : Int, n ∈ ([30, 60, 90, 365] : List Int) →
        (now - d = n * 86400 → daysAgo now d = n) ∧
        (now - d = (n + 1) * 86400 → daysAgo now d = n + 1)) ∧
      (now < d → daysAgo now d ≤ 0) := by
  have hok : ∀ e ∈ [raceEvt d], ratioOK e = true := by
    intro e he; rw [List.mem_singleton.mp he]; rfl
  have hrace : isRaceE ⟨"TYPE_RACE", d, "R1", JVal.arr [JVal.str "1.0"],
      JVal.arr [JVal.num 2]⟩ = true := rfl
  have hwkg : wkgVal ⟨"TYPE_RACE", d, "R1", JVal.arr [JVal.str "1.0"],
      JVal.arr [JVal.num 2]⟩ = 2 := rfl
  have h2pos : (0 : ℚ) < 2 := by norm_num
  refine ⟨_, importRider_eq now riderID _ hok,
    ?_, ?_, ?_, ?_, ?_, ?_, ?_, rfl, ?_, daysAgo_nonpos_of_future now d⟩
  · simp [finalize, stepP_rides, initAcc, raceEvt]
  · simp [finalize, stepP_races, initAcc, raceEvt, hrace]
  · simp [finalize, stepP_races90, initAcc, raceEvt, hrace]
  · simp [finalize, stepP_races30, initAcc, raceEvt, hrace]
  · simp [finalize, stepP_ftp90, initAcc, raceEvt, hwkg, h2pos]
  · simp [finalize, stepP_ftp60, initAcc, raceEvt, hwkg, h2pos]
  · simp [finalize, stepP_ftp30, initAcc, raceEvt, hwkg, h2pos]
  · intro n _
    constructor
    · intro heq
      rw [daysAgo, heq, Int.mul_tdiv_cancel _ (by norm_num)]
    · intro heq
      rw [daysAgo, heq, Int.mul_tdiv_cancel _ (by norm_num)]

theorem window_membership_witness :
    ∃ r, importRider (365 * 86400) 1 [raceEvt 0] = Except.ok r ∧ r.rides = 1 := by
  obtain ⟨r, hok, hr, _⟩ := window_membership (365 * 86400) 1 0
  refine ⟨r, hok, ?_⟩
  rw [hr]
  decide

/-- C10 (amended): when every event of a non-empty history has the
epoch-defaulted date and now is at least 366 whole days past the epoch, no
event is counted in any window, yet the latest-event date is set to the
epoch, which differs from the unset zero time, so MonthsAgo answers "Over a
year ago" rather than "No latest event". -/
theorem epoch_defaulted (now riderID : Int) (l : List Event) (hne : l ≠ [])
    (hall : ∀ e ∈ l, e.eventDateSecs = 0 ∧ ratioOK e = true)
    (hnow : 366 * 86400 ≤ now) :
    ∃ r, importRider now riderID l = Except.ok r ∧
      r.rides = 0 ∧ r.races = 0 ∧ r.races90 = 0 ∧ r.races30 = 0 ∧
      r.ftp90 = 0 ∧ r.ftp60 = 0 ∧ r.ftp30 = 0 ∧
      r.latestEventDate = 0 ∧ r.latestEventDate ≠ zeroTime ∧
      Rider.monthsAgo now r = "Over a year ago" := by
  have hok : ∀ e ∈ l, ratioOK e = true := fun e he => (hall e he).2
  have hdays : ∀ e ∈ l, 366 ≤ daysAgo now e.eventDateSecs := by
    intro e he
    rw [(hall e he).1, daysAgo, sub_zero,
      Int.tdiv_eq_ediv (le_trans (by norm_num) hnow) (by norm_num)]
    exact (Int.le_ediv_iff_mul_le (by norm_num)).mpr hnow
  have hwin : ∀ k : Int, k ≤ 365 → ∀ e ∈ l, inWin now k e = false := by
    intro k hk e he
    have := hdays e he
    simp only [inWin, decide_eq_false_iff_not, not_le]
    omega
  have hled : (finalize (l.foldl (stepP now) (initAcc riderID))).latestEventDate = 0 := by
    simp only [finalize, fold_led, initAcc]
    rw [foldl_max_dates_zero l zeroTime fun e he => (hall e he).1]
    cases l with
    | nil => exact absurd rfl hne
    | cons x xs =>
      simp only [List.isEmpty_cons, if_neg]
      exact max_eq_right (by norm_num [zeroTime])
  refine ⟨_, importRider_eq now riderID l hok, ?_, ?_, ?_, ?_, ?_, ?_, ?_,
    hled, by rw [hled]; decide, ?_⟩
  · simp only [finalize, fold_rides, initAcc]
    rw [List.countP_eq_zero.mpr fun a ha => by simp [hwin 365 (by norm_num) a ha]]
  · simp only [finalize, fold_races, initAcc]
    rw [List.countP_eq_zero.mpr fun a ha => by
      simp [raceIn, hwin 365 (by norm_num) a ha]]
  · simp only [finalize, fold_races90, initAcc]
    rw [List.countP_eq_zero.mpr fun a ha => by
      simp [raceIn, hwin 90 (by norm_num) a ha]]
  · simp only [finalize, fold_races30, initAcc]
    rw [List.countP_eq_zero.mpr fun a ha => by
      simp [raceIn, hwin 30 (by norm_num) a ha]]
  · simp only [finalize, fold_ftp90, initAcc]
    exact foldl_condMax_allfalse _ _ _ _ fun e he => hwin 90 (by norm_num) e he
  · simp only [finalize, fold_ftp60, initAcc]
    exact foldl_condMax_allfalse _ _ _ _ fun e he => hwin 60 (by norm_num) e he
  · simp only [finalize, fold_ftp30, initAcc]
    exact foldl_condMax_allfalse _ _ _ _ fun e he => hwin 30 (by norm_num) e he
  · rw [Rider.monthsAgo, hled]
    rw [if_neg (by decide), if_pos (by omega)]

theorem epoch_defaulted_cex :
    (365 * 86400 + 43200 : Int) > 365 * 86400 ∧
    Except.map Rider.rides (importRider (365 * 86400 + 43200) 1 [raceEvt 0]) =
      Except.ok 1 := by
  refine ⟨by decide, by decide⟩

theorem epoch_defaulted_witness :
    ∃ r, importRider (366 * 86400) 1 [raceEvt 0] = Except.ok r ∧
      r.rides = 0 ∧ r.races = 0 ∧ r.races90 = 0 ∧ r.races30 = 0 ∧
      r.ftp90 = 0 ∧ r.ftp60 = 0 ∧ r.ftp30 = 0 ∧
      r.latestEventDate = 0 ∧ r.latestEventDate ≠ zeroTime ∧
      Rider.monthsAgo (366 * 86400) r = "Over a year ago" :=
  epoch_defaulted (366 * 86400) 1 [raceEvt 0] (by simp)
    (fun e he => by rw [List.mem_singleton.mp he]; exact ⟨rfl, rfl⟩) (by norm_num)

end Zp
